import Mathlib

/-!
# Blueprint viewer: `my-app/src/App.js`

A shallow embedding of the `BlueprintViewer` component.

* Numbers are exact rationals (`ℚ`) in the main development. The arithmetic of
  `drawBlueprint` is embedded a second time in IEEE 754 binary64 (`Binary64`), to
  separate what holds of the program from what holds only over exact arithmetic.
* `drawBlueprint` is embedded as the sequence of calls it makes on the 2D context
  (`CanvasOp`), together with an interpreter of those calls on an explicit drawing
  surface (`Context2D`).  The `console.log` calls are left out: they touch neither
  the surface nor the component state.
* The component state (`useState` cells) is the record `State`; the handlers are
  functions on it.
-/

namespace BlueprintViewer

/-! ## Data model -/

/-- A point of a blueprint: the JSON object with numeric fields `x` and `y`. -/
structure Point where
  x : ℚ
  y : ℚ
  deriving DecidableEq

/-- A blueprint as returned by the backend: a name and its points in drawing order. -/
structure Blueprint where
  name : String
  points : List Point
  deriving DecidableEq

/-! ## The 2D context -/

/-- Angles are measured in units of π, so that `Math.PI` is the rational `1`. -/
def mathPI : ℚ := 1

/-- One segment of the current path of a 2D context. -/
inductive PathSeg
  | moveTo (x y : ℚ)
  | lineTo (x y : ℚ)
  | arc (x y radius startAngle endAngle : ℚ)
  deriving DecidableEq

/-- The calls and property assignments that `drawBlueprint` performs on `ctx`. -/
inductive CanvasOp
  | clearRect (x y w h : ℚ)
  | beginPath
  | moveTo (x y : ℚ)
  | lineTo (x y : ℚ)
  | setStrokeStyle (style : String)
  | setLineWidth (width : ℚ)
  | stroke
  | arc (x y radius startAngle endAngle : ℚ)
  | setFillStyle (style : String)
  | fill
  deriving DecidableEq

/-- What has been put on the bitmap, oldest first. -/
inductive Paint
  | stroked (path : List PathSeg) (strokeStyle : String) (lineWidth : ℚ)
  | filled (path : List PathSeg) (fillStyle : String)
  | erased (x y w h : ℚ)
  deriving DecidableEq

/-- The state of a `CanvasRenderingContext2D` as far as `drawBlueprint` uses it:
the bitmap content, the current path and the three style properties. -/
structure Context2D where
  painted : List Paint
  path : List PathSeg
  strokeStyle : String
  lineWidth : ℚ
  fillStyle : String
  deriving DecidableEq

/-- The `<canvas>` element: its dimensions and the context that
`getContext('2d')` hands out (`none` when it returns `null`). -/
structure Canvas where
  width : ℚ
  height : ℚ
  context : Option Context2D
  deriving DecidableEq

/-- Effect of one context call on a canvas of the given dimensions.
`clearRect` over a rectangle that covers the whole bitmap leaves nothing painted;
a smaller rectangle is recorded as an erased region on top of what is there. -/
def Context2D.apply (width height : ℚ) (ctx : Context2D) : CanvasOp → Context2D
  | .clearRect x y w h =>
      if x ≤ 0 ∧ y ≤ 0 ∧ width ≤ x + w ∧ height ≤ y + h then
        { ctx with painted := [] }
      else
        { ctx with painted := ctx.painted ++ [Paint.erased x y w h] }
  | .beginPath => { ctx with path := [] }
  | .moveTo x y => { ctx with path := ctx.path ++ [PathSeg.moveTo x y] }
  | .lineTo x y => { ctx with path := ctx.path ++ [PathSeg.lineTo x y] }
  | .setStrokeStyle style => { ctx with strokeStyle := style }
  | .setLineWidth w => { ctx with lineWidth := w }
  | .stroke =>
      { ctx with painted := ctx.painted ++ [Paint.stroked ctx.path ctx.strokeStyle ctx.lineWidth] }
  | .arc x y r a b => { ctx with path := ctx.path ++ [PathSeg.arc x y r a b] }
  | .setFillStyle style => { ctx with fillStyle := style }
  | .fill => { ctx with painted := ctx.painted ++ [Paint.filled ctx.path ctx.fillStyle] }

/-- Run a sequence of context calls on a canvas. A canvas without context is unchanged. -/
def Canvas.run (canvas : Canvas) (ops : List CanvasOp) : Canvas :=
  match canvas.context with
  | none => canvas
  | some ctx =>
      { canvas with context := some (ops.foldl (Context2D.apply canvas.width canvas.height) ctx) }

/-- The bitmap content of a canvas (nothing when it has no context). -/
def Canvas.painted (canvas : Canvas) : List Paint :=
  match canvas.context with
  | none => []
  | some ctx => ctx.painted

/-! ## `drawBlueprint` -/

/-- The value of `Math.min(x, ...xs)` on at least one argument. -/
def mathMin (x : ℚ) (xs : List ℚ) : ℚ := xs.foldl min x

/-- The value of `Math.max(x, ...xs)` on at least one argument. -/
def mathMax (x : ℚ) (xs : List ℚ) : ℚ := xs.foldl max x

/-- The JavaScript `a || b` on numbers: `b` when `a` is falsy, that is `0`. -/
def jsOr (a b : ℚ) : ℚ := if a = 0 then b else a

/-- The local `minX` of `drawBlueprint`, for the points `p0 :: rest`. -/
def minX (p0 : Point) (rest : List Point) : ℚ := mathMin p0.x (rest.map Point.x)

/-- The local `maxX` of `drawBlueprint`, for the points `p0 :: rest`. -/
def maxX (p0 : Point) (rest : List Point) : ℚ := mathMax p0.x (rest.map Point.x)

/-- The local `minY` of `drawBlueprint`, for the points `p0 :: rest`. -/
def minY (p0 : Point) (rest : List Point) : ℚ := mathMin p0.y (rest.map Point.y)

/-- The local `maxY` of `drawBlueprint`, for the points `p0 :: rest`. -/
def maxY (p0 : Point) (rest : List Point) : ℚ := mathMax p0.y (rest.map Point.y)

/-- The local `scaleX`: `(canvas.width - 2 * margin) / (maxX - minX || 1)`, over exact
rationals (`Binary64.scaleX` is the same expression in the arithmetic of the host). -/
def scaleX (margin width : ℚ) (p0 : Point) (rest : List Point) : ℚ :=
  (width - 2 * margin) / jsOr (maxX p0 rest - minX p0 rest) 1

/-- The local `scaleY`: `(canvas.height - 2 * margin) / (maxY - minY || 1)`, over exact
rationals (`Binary64.scaleY` is the same expression in the arithmetic of the host). -/
def scaleY (margin height : ℚ) (p0 : Point) (rest : List Point) : ℚ :=
  (height - 2 * margin) / jsOr (maxY p0 rest - minY p0 rest) 1

/-- The local `scale`: `Math.min(scaleX, scaleY)`. -/
def scale (margin width height : ℚ) (p0 : Point) (rest : List Point) : ℚ :=
  mathMin (scaleX margin width p0 rest) [scaleY margin height p0 rest]

/-- The closure `transformCoord`, with the captured `margin` made a parameter, over exact
rationals (`Binary64.transformCoord` is the same expression in the arithmetic of the host). -/
def transformCoord (margin coord min scale : ℚ) : ℚ := (coord - min) * scale + margin

/-- The loop `for (let i = 1; i < points.length; i++) ctx.lineTo(...)`, entered at `i`. -/
def lineToLoop (margin : ℚ) (points : List Point) (minX minY scale : ℚ) (i : Nat) :
    List CanvasOp :=
  if h : i < points.length then
    CanvasOp.lineTo (transformCoord margin points[i].x minX scale)
        (transformCoord margin points[i].y minY scale)
      :: lineToLoop margin points minX minY scale (i + 1)
  else []
termination_by points.length - i

/-- The method `Array.prototype.forEach`: the callback receives each element with its
index, from `index` on; the context calls the callback makes are collected in order. -/
def forEach {α β : Type} (callback : α → Nat → List β) : List α → Nat → List β
  | [], _ => []
  | a :: rest, index => callback a index ++ forEach callback rest (index + 1)

/-- The callback of `blueprint.points.forEach` in `drawBlueprint`: one marker. -/
def drawPoint (margin minX minY scale : ℚ) (point : Point) (index : Nat) : List CanvasOp :=
  [CanvasOp.beginPath,
   CanvasOp.arc (transformCoord margin point.x minX scale)
     (transformCoord margin point.y minY scale) 3 0 (2 * mathPI),
   CanvasOp.setFillStyle (if index = 0 then "#2ecc71" else "#e74c3c"),
   CanvasOp.fill]

/-- The body of `drawBlueprint` with its constant `margin` as a parameter: the
context calls made for `canvasRef.current` and `blueprint`, in program order. -/
def drawBlueprintWith (margin : ℚ) (canvasRef : Option Canvas) (blueprint : Option Blueprint) :
    List CanvasOp :=
  match canvasRef, blueprint with
  | some canvas, some blueprint =>
    match canvas.context with
    | none => []
    | some _ =>
      CanvasOp.clearRect 0 0 canvas.width canvas.height ::
        match blueprint.points with
        | [] => []
        | p0 :: rest =>
          let points := p0 :: rest
          let minX := minX p0 rest
          let minY := minY p0 rest
          let scale := scale margin canvas.width canvas.height p0 rest
          [CanvasOp.beginPath,
           CanvasOp.moveTo (transformCoord margin p0.x minX scale)
             (transformCoord margin p0.y minY scale)]
          ++ lineToLoop margin points minX minY scale 1
          ++ [CanvasOp.setStrokeStyle "#3498db", CanvasOp.setLineWidth 2, CanvasOp.stroke]
          ++ forEach (drawPoint margin minX minY scale) points 0
  | _, _ => []

/-- The function `drawBlueprint` of the source, where `margin` is the constant `20`. -/
def drawBlueprint (canvasRef : Option Canvas) (blueprint : Option Blueprint) : List CanvasOp :=
  drawBlueprintWith 20 canvasRef blueprint

/-- One invocation of `drawBlueprint` on a drawing surface: the surface after the call. -/
def drawWith (margin : ℚ) (blueprint : Blueprint) (s : Canvas) : Canvas :=
  s.run (drawBlueprintWith margin (some s) (some blueprint))

/-- One invocation of the source's `drawBlueprint` (margin `20`) on a surface. -/
def draw (blueprint : Blueprint) (s : Canvas) : Canvas :=
  s.run (drawBlueprint (some s) (some blueprint))

/-- The coordinate pair a context call receives, for `moveTo`, `lineTo` and `arc`. -/
def CanvasOp.coord : CanvasOp → Option (ℚ × ℚ)
  | .moveTo x y => some (x, y)
  | .lineTo x y => some (x, y)
  | .arc x y _ _ _ => some (x, y)
  | _ => none

/-! ## Component state and handlers -/

/-- The `useState` cells of `BlueprintViewer`. -/
structure State where
  author : String
  blueprints : List Blueprint
  selectedBlueprint : Option Blueprint
  modalIsOpen : Bool
  deriving DecidableEq

/-- The state on first render. -/
def State.initial : State :=
  { author := "", blueprints := [], selectedBlueprint := none, modalIsOpen := false }

/-- What the awaited `fetch(url)` and `response.json()` come to: `fetch` rejects, or it
resolves to a response with its `ok` flag and a body that parses (`some data`) or
does not (`none`: `response.json()` rejects). -/
inductive FetchResult
  | threw
  | response (ok : Bool) (json : Option (List Blueprint))

/-- The request URL: the empty author string is falsy. -/
def url (author : String) : String :=
  if author = "" then "http://localhost:8080/blueprints"
  else "http://localhost:8080/blueprints/" ++ author

/-- The handler `fetchBlueprints`, run against a backend `fetch`. -/
def fetchBlueprints (fetch : String → FetchResult) (s : State) : State :=
  match fetch (url s.author) with
  | .threw => { s with blueprints := [] }
  | .response ok json =>
    if !ok then { s with blueprints := [] }
    else
      match json with
      | none => { s with blueprints := [] }
      | some data => { s with blueprints := data, selectedBlueprint := none }

/-- The handler `openModal`. -/
def openModal (s : State) (blueprint : Blueprint) : State :=
  { s with selectedBlueprint := some blueprint, modalIsOpen := true }

/-- The handler `onRequestClose` of the modal (also the Close button). -/
def onRequestClose (s : State) : State :=
  { s with modalIsOpen := false }

/-- One step of the component: a fetch that succeeds with `data`, a fetch that fails,
opening the modal on a listed blueprint, closing the modal. -/
inductive Step : State → State → Prop
  | fetchSuccess (s : State) (data : List Blueprint) :
      Step s (fetchBlueprints (fun _ => FetchResult.response true (some data)) s)
  | fetchFailure (s : State) (fetch : String → FetchResult)
      (h : ∀ data, fetch (url s.author) ≠ FetchResult.response true (some data)) :
      Step s (fetchBlueprints fetch s)
  | openModal (s : State) (bp : Blueprint) (h : bp ∈ s.blueprints) :
      Step s (openModal s bp)
  | close (s : State) : Step s (onRequestClose s)

/-- The states reachable from the initial state. -/
inductive Reachable : State → Prop
  | init : Reachable State.initial
  | step {s t : State} : Reachable s → Step s t → Reachable t

/-! ## The arithmetic of `drawBlueprint` in binary64

The definitions above compute over exact rationals. The ones below compute the same
expressions as the host does, in IEEE 754 binary64 with round to nearest, ties to even.
They show where a statement that holds over exact arithmetic fails on the program. -/

namespace Binary64

/-- A binary64 number: `NaN`, an infinity with its sign, or a finite value. The sign of
zero is not kept: it only shows when dividing by zero, which `drawBlueprint` never does. -/
inductive F64
  | nan
  | inf (negative : Bool)
  | fin (q : ℚ)
  deriving DecidableEq

/-- The power `2 ^ e` for an integer exponent. -/
def pow2 (e : ℤ) : ℚ :=
  if 0 ≤ e then ((2 ^ e.toNat : ℕ) : ℚ) else 1 / ((2 ^ (-e).toNat : ℕ) : ℚ)

/-- The number of halvings that bring `n` below `2`, that is `⌊log₂ n⌋` for `n > 0`;
the first argument bounds the number of steps, and `n` itself always suffices. -/
def ilog2 : ℕ → ℕ → ℕ
  | 0, _ => 0
  | bound + 1, n => if n < 2 then 0 else ilog2 bound (n / 2) + 1

/-- The binary exponent of `a > 0`: the `e` with `2 ^ e ≤ a < 2 ^ (e + 1)`. -/
def floorLog2 (a : ℚ) : ℤ :=
  let k : ℤ := (ilog2 a.num.natAbs a.num.natAbs : ℤ) - (ilog2 a.den a.den : ℤ)
  if pow2 k ≤ a then k else k - 1

/-- The integer nearest to `a ≥ 0`, the even one on a tie. -/
def roundHalfEven (a : ℚ) : ℤ :=
  let f := ⌊a⌋
  if a - f < 1 / 2 then f else if 1 / 2 < a - f then f + 1 else if f % 2 = 0 then f else f + 1

/-- Rounding of an exact result to binary64: to the nearest value with a 53-bit
significand (quantum `2 ^ -1074` below the normal range), ties to even, and to an
infinity from `2 ^ 1024` on. -/
def round (q : ℚ) : F64 :=
  if q = 0 then F64.fin 0
  else if pow2 1024 ≤ |q| then F64.inf (decide (q < 0))
  else
    let e := max (floorLog2 |q|) (-1022) - 52
    let v := (roundHalfEven (|q| / pow2 e) : ℚ) * pow2 e
    if pow2 1024 ≤ v then F64.inf (decide (q < 0)) else F64.fin (if q < 0 then -v else v)

/-- The operator `+`. -/
def add : F64 → F64 → F64
  | F64.nan, _ => F64.nan
  | _, F64.nan => F64.nan
  | F64.inf s, F64.inf t => if s = t then F64.inf s else F64.nan
  | F64.inf s, F64.fin _ => F64.inf s
  | F64.fin _, F64.inf t => F64.inf t
  | F64.fin a, F64.fin b => round (a + b)

/-- The operator `-`. -/
def sub : F64 → F64 → F64
  | F64.nan, _ => F64.nan
  | _, F64.nan => F64.nan
  | F64.inf s, F64.inf t => if s = t then F64.nan else F64.inf s
  | F64.inf s, F64.fin _ => F64.inf s
  | F64.fin _, F64.inf t => F64.inf (!t)
  | F64.fin a, F64.fin b => round (a - b)

/-- The operator `*`. -/
def mul : F64 → F64 → F64
  | F64.nan, _ => F64.nan
  | _, F64.nan => F64.nan
  | F64.inf s, F64.inf t => F64.inf (s != t)
  | F64.inf s, F64.fin b => if b = 0 then F64.nan else F64.inf (s != decide (b < 0))
  | F64.fin a, F64.inf t => if a = 0 then F64.nan else F64.inf (decide (a < 0) != t)
  | F64.fin a, F64.fin b => round (a * b)

/-- The operator `/` (a zero divisor is taken as `+0`). -/
def div : F64 → F64 → F64
  | F64.nan, _ => F64.nan
  | _, F64.nan => F64.nan
  | F64.inf _, F64.inf _ => F64.nan
  | F64.inf s, F64.fin b => F64.inf (s != decide (b < 0))
  | F64.fin _, F64.inf _ => F64.fin 0
  | F64.fin a, F64.fin b =>
      if b = 0 then (if a = 0 then F64.nan else F64.inf (decide (a < 0))) else round (a / b)

/-- The lesser of two numbers, `NaN` when one of them is. -/
def min2 : F64 → F64 → F64
  | F64.nan, _ => F64.nan
  | _, F64.nan => F64.nan
  | F64.inf true, _ => F64.inf true
  | _, F64.inf true => F64.inf true
  | F64.inf false, b => b
  | a, F64.inf false => a
  | F64.fin a, F64.fin b => F64.fin (min a b)

/-- The greater of two numbers, `NaN` when one of them is. -/
def max2 : F64 → F64 → F64
  | F64.nan, _ => F64.nan
  | _, F64.nan => F64.nan
  | F64.inf false, _ => F64.inf false
  | _, F64.inf false => F64.inf false
  | F64.inf true, b => b
  | a, F64.inf true => a
  | F64.fin a, F64.fin b => F64.fin (max a b)

/-- The function `Math.min(...xs)`; `Infinity` without arguments. -/
def mathMin (xs : List F64) : F64 := xs.foldl min2 (F64.inf false)

/-- The function `Math.max(...xs)`; `-Infinity` without arguments. -/
def mathMax (xs : List F64) : F64 := xs.foldl max2 (F64.inf true)

/-- The operator `a || b` on numbers: `b` when `a` is falsy, that is zero or `NaN`. -/
def jsOr (a b : F64) : F64 :=
  match a with
  | F64.nan => b
  | F64.fin q => if q = 0 then b else a
  | F64.inf _ => a

/-- A point whose coordinates are binary64 numbers. -/
structure Point where
  x : F64
  y : F64
  deriving DecidableEq

/-- The constant `margin` of `drawBlueprint`. -/
def margin : F64 := F64.fin 20

/-- The local `minX`: `Math.min(...xValues)`. -/
def minX (points : List Point) : F64 := mathMin (points.map Point.x)

/-- The local `maxX`: `Math.max(...xValues)`. -/
def maxX (points : List Point) : F64 := mathMax (points.map Point.x)

/-- The local `minY`: `Math.min(...yValues)`. -/
def minY (points : List Point) : F64 := mathMin (points.map Point.y)

/-- The local `maxY`: `Math.max(...yValues)`. -/
def maxY (points : List Point) : F64 := mathMax (points.map Point.y)

/-- The local `scaleX`: `(canvas.width - 2 * margin) / (maxX - minX || 1)`. -/
def scaleX (width : F64) (points : List Point) : F64 :=
  div (sub width (mul (F64.fin 2) margin)) (jsOr (sub (maxX points) (minX points)) (F64.fin 1))

/-- The local `scaleY`: `(canvas.height - 2 * margin) / (maxY - minY || 1)`. -/
def scaleY (height : F64) (points : List Point) : F64 :=
  div (sub height (mul (F64.fin 2) margin)) (jsOr (sub (maxY points) (minY points)) (F64.fin 1))

/-- The local `scale`: `Math.min(scaleX, scaleY)`. -/
def scale (width height : F64) (points : List Point) : F64 :=
  mathMin [scaleX width points, scaleY height points]

/-- The closure `transformCoord`: `(coord - min) * scale + margin`. -/
def transformCoord (coord min scale : F64) : F64 := add (mul (sub coord min) scale) margin

/-- The coordinate pair that `drawBlueprint` passes to `moveTo`, `lineTo` and `arc` for
the point `p` of the blueprint `points`. -/
def transformPoint (width height : F64) (points : List Point) (p : Point) : F64 × F64 :=
  (transformCoord p.x (minX points) (scale width height points),
   transformCoord p.y (minY points) (scale width height points))

end Binary64

/-! ## Vocabulary of the statements -/

/-- The image of the point `p` under the fit that `drawBlueprint` computes for the
points `p0 :: rest` on a canvas of the given dimensions. -/
def transformPoint (margin width height : ℚ) (p0 : Point) (rest : List Point) (p : Point) :
    ℚ × ℚ :=
  (transformCoord margin p.x (minX p0 rest) (scale margin width height p0 rest),
   transformCoord margin p.y (minY p0 rest) (scale margin width height p0 rest))

/-- The context calls that put one marker of the given fill colour at `c`. -/
def markerOps (c : ℚ × ℚ) (fillStyle : String) : List CanvasOp :=
  [CanvasOp.beginPath, CanvasOp.arc c.1 c.2 3 0 (2 * mathPI),
   CanvasOp.setFillStyle fillStyle, CanvasOp.fill]

/-- A painted marker: a filled full circle of radius 3 at `c`. -/
def marker (c : ℚ × ℚ) (fillStyle : String) : Paint :=
  Paint.filled [PathSeg.arc c.1 c.2 3 0 (2 * mathPI)] fillStyle

/-- A context as `getContext('2d')` first hands it out: nothing painted, no path, and
the default styles of the Canvas API. -/
def Context2D.fresh : Context2D :=
  { painted := [], path := [], strokeStyle := "#000000", lineWidth := 1, fillStyle := "#000000" }

/-- The surface after the path and the first marker: nothing of the prior state is left. -/
def afterStart (width height margin : ℚ) (p0 : Point) (rest : List Point) : Context2D :=
  { painted :=
      [Paint.stroked
        (PathSeg.moveTo (transformPoint margin width height p0 rest p0).1
            (transformPoint margin width height p0 rest p0).2
          :: rest.map (fun p => PathSeg.lineTo (transformPoint margin width height p0 rest p).1
              (transformPoint margin width height p0 rest p).2))
        "#3498db" 2,
       marker (transformPoint margin width height p0 rest p0) "#2ecc71"],
    path := [PathSeg.arc (transformPoint margin width height p0 rest p0).1
      (transformPoint margin width height p0 rest p0).2 3 0 (2 * mathPI)],
    strokeStyle := "#3498db",
    lineWidth := 2,
    fillStyle := "#2ecc71" }

/-! ## Auxiliary lemmas: binary64 -/

theorem Binary64.ilog2_bounds (bound n : ℕ) (hn : 0 < n) (hb : n ≤ bound) :
    2 ^ Binary64.ilog2 bound n ≤ n ∧ n < 2 ^ (Binary64.ilog2 bound n + 1) := by
  induction bound generalizing n with
  | zero => omega
  | succ b ih =>
    unfold Binary64.ilog2
    by_cases h2 : n < 2
    · rw [if_pos h2]
      constructor <;> simp <;> omega
    · rw [if_neg h2]
      obtain ⟨h1, h3⟩ := ih (n / 2) (by omega) (by omega)
      rw [pow_succ, pow_succ]
      constructor <;> omega

/-- The bound `n` is enough: `ilog2 n n` is the floor of the binary logarithm of `n`. -/
theorem Binary64.ilog2_self (n : ℕ) (hn : 0 < n) :
    2 ^ Binary64.ilog2 n n ≤ n ∧ n < 2 ^ (Binary64.ilog2 n n + 1) :=
  Binary64.ilog2_bounds n n hn (le_refl n)

/-! ## Auxiliary lemmas: extrema -/

theorem mathMin_le_head (x : ℚ) (xs : List ℚ) : mathMin x xs ≤ x := by
  unfold mathMin
  induction xs generalizing x with
  | nil => simp
  | cons a xs ih => exact le_trans (ih (min x a)) (min_le_left x a)

theorem mathMin_le_of_mem (x : ℚ) (xs : List ℚ) (a : ℚ) (h : a ∈ xs) : mathMin x xs ≤ a := by
  induction xs generalizing x with
  | nil => simp at h
  | cons b xs ih =>
    rcases List.mem_cons.mp h with rfl | h
    · exact le_trans (mathMin_le_head (min x a) xs) (min_le_right x a)
    · exact ih (min x b) h

theorem mathMin_attained (x : ℚ) (xs : List ℚ) : mathMin x xs = x ∨ mathMin x xs ∈ xs := by
  induction xs generalizing x with
  | nil => left; rfl
  | cons b xs ih =>
    have hstep : mathMin x (b :: xs) = mathMin (min x b) xs := rfl
    rw [hstep]
    rcases ih (min x b) with h | h
    · rcases min_choice x b with hm | hm
      · left; rw [h, hm]
      · right; rw [h, hm]; exact List.mem_cons_self b xs
    · right; exact List.mem_cons_of_mem b h

theorem head_le_mathMax (x : ℚ) (xs : List ℚ) : x ≤ mathMax x xs := by
  unfold mathMax
  induction xs generalizing x with
  | nil => simp
  | cons a xs ih => exact le_trans (le_max_left x a) (ih (max x a))

theorem le_mathMax_of_mem (x : ℚ) (xs : List ℚ) (a : ℚ) (h : a ∈ xs) : a ≤ mathMax x xs := by
  induction xs generalizing x with
  | nil => simp at h
  | cons b xs ih =>
    rcases List.mem_cons.mp h with rfl | h
    · exact le_trans (le_max_right x a) (head_le_mathMax (max x a) xs)
    · exact ih (max x b) h

theorem mathMax_attained (x : ℚ) (xs : List ℚ) : mathMax x xs = x ∨ mathMax x xs ∈ xs := by
  induction xs generalizing x with
  | nil => left; rfl
  | cons b xs ih =>
    have hstep : mathMax x (b :: xs) = mathMax (max x b) xs := rfl
    rw [hstep]
    rcases ih (max x b) with h | h
    · rcases max_choice x b with hm | hm
      · left; rw [h, hm]
      · right; rw [h, hm]; exact List.mem_cons_self b xs
    · right; exact List.mem_cons_of_mem b h

theorem minX_le (p0 : Point) (rest : List Point) (p : Point) (h : p ∈ p0 :: rest) :
    minX p0 rest ≤ p.x := by
  rcases List.mem_cons.mp h with rfl | h
  · exact mathMin_le_head _ _
  · exact mathMin_le_of_mem _ _ _ (List.mem_map_of_mem Point.x h)

theorem le_maxX (p0 : Point) (rest : List Point) (p : Point) (h : p ∈ p0 :: rest) :
    p.x ≤ maxX p0 rest := by
  rcases List.mem_cons.mp h with rfl | h
  · exact head_le_mathMax _ _
  · exact le_mathMax_of_mem _ _ _ (List.mem_map_of_mem Point.x h)

theorem minY_le (p0 : Point) (rest : List Point) (p : Point) (h : p ∈ p0 :: rest) :
    minY p0 rest ≤ p.y := by
  rcases List.mem_cons.mp h with rfl | h
  · exact mathMin_le_head _ _
  · exact mathMin_le_of_mem _ _ _ (List.mem_map_of_mem Point.y h)

theorem le_maxY (p0 : Point) (rest : List Point) (p : Point) (h : p ∈ p0 :: rest) :
    p.y ≤ maxY p0 rest := by
  rcases List.mem_cons.mp h with rfl | h
  · exact head_le_mathMax _ _
  · exact le_mathMax_of_mem _ _ _ (List.mem_map_of_mem Point.y h)

theorem minX_le_maxX (p0 : Point) (rest : List Point) : minX p0 rest ≤ maxX p0 rest :=
  le_trans (minX_le p0 rest p0 (List.mem_cons_self _ _)) (le_maxX p0 rest p0 (List.mem_cons_self _ _))

theorem minY_le_maxY (p0 : Point) (rest : List Point) : minY p0 rest ≤ maxY p0 rest :=
  le_trans (minY_le p0 rest p0 (List.mem_cons_self _ _)) (le_maxY p0 rest p0 (List.mem_cons_self _ _))

/-- The guarded divisor `d || 1` is positive whenever `d` is not negative. -/
theorem jsOr_one_pos (d : ℚ) (h : 0 ≤ d) : 0 < jsOr d 1 := by
  unfold jsOr
  split
  · exact one_pos
  · exact lt_of_le_of_ne h (Ne.symm ‹_›)

theorem scale_eq_min (margin width height : ℚ) (p0 : Point) (rest : List Point) :
    scale margin width height p0 rest
      = min (scaleX margin width p0 rest) (scaleY margin height p0 rest) := rfl

/-! ## Auxiliary lemmas: the two loops -/

theorem lineToLoop_eq_map_drop (margin : ℚ) (points : List Point) (mx my sc : ℚ) (i : Nat) :
    lineToLoop margin points mx my sc i
      = (points.drop i).map
          (fun p => CanvasOp.lineTo (transformCoord margin p.x mx sc)
            (transformCoord margin p.y my sc)) := by
  generalize hk : points.length - i = k
  induction k generalizing i with
  | zero =>
    have hle : points.length ≤ i := by omega
    rw [lineToLoop, dif_neg (by omega), List.drop_of_length_le hle]
    rfl
  | succ k ih =>
    have hlt : i < points.length := by omega
    rw [lineToLoop, dif_pos hlt, List.drop_eq_getElem_cons hlt, ih (i + 1) (by omega)]
    rfl

theorem forEach_drawPoint_succ (margin mx my sc : ℚ) (points : List Point) (k : Nat) :
    forEach (drawPoint margin mx my sc) points (k + 1)
      = points.flatMap (fun p => drawPoint margin mx my sc p 1) := by
  induction points generalizing k with
  | nil => rfl
  | cons p rest ih =>
    rw [forEach, ih (k + 1), List.flatMap_cons]
    rfl

/-- The calls of `drawBlueprint` on a non-empty blueprint, loops unrolled into maps. -/
theorem drawBlueprintWith_cons (margin width height : ℚ) (ctx : Context2D) (name : String)
    (p0 : Point) (rest : List Point) :
    drawBlueprintWith margin (some ⟨width, height, some ctx⟩) (some ⟨name, p0 :: rest⟩)
      = [CanvasOp.clearRect 0 0 width height, CanvasOp.beginPath,
          CanvasOp.moveTo (transformPoint margin width height p0 rest p0).1
            (transformPoint margin width height p0 rest p0).2]
        ++ rest.map (fun p => CanvasOp.lineTo (transformPoint margin width height p0 rest p).1
            (transformPoint margin width height p0 rest p).2)
        ++ [CanvasOp.setStrokeStyle "#3498db", CanvasOp.setLineWidth 2, CanvasOp.stroke]
        ++ markerOps (transformPoint margin width height p0 rest p0) "#2ecc71"
        ++ rest.flatMap
            (fun p => markerOps (transformPoint margin width height p0 rest p) "#e74c3c") := by
  simp only [drawBlueprintWith, lineToLoop_eq_map_drop, forEach, forEach_drawPoint_succ,
    List.drop_one, List.tail_cons]
  simp [drawPoint, markerOps, transformPoint]

theorem drawBlueprintWith_nil (margin width height : ℚ) (ctx : Context2D) (name : String) :
    drawBlueprintWith margin (some ⟨width, height, some ctx⟩) (some ⟨name, []⟩)
      = [CanvasOp.clearRect 0 0 width height] := rfl

/-! ## Auxiliary lemmas: running the calls on a surface -/

theorem apply_clearRect_full (width height : ℚ) (c : Context2D) :
    c.apply width height (CanvasOp.clearRect 0 0 width height) = { c with painted := [] } := by
  simp [Context2D.apply]

theorem foldl_lineTo (width height : ℚ) (f : Point → ℚ × ℚ) (rest : List Point)
    (c : Context2D) :
    (rest.map (fun p => CanvasOp.lineTo (f p).1 (f p).2)).foldl (Context2D.apply width height) c
      = { c with path := c.path ++ rest.map (fun p => PathSeg.lineTo (f p).1 (f p).2) } := by
  induction rest generalizing c with
  | nil => simp
  | cons p rest ih => simp [ih, Context2D.apply]

theorem foldl_markerOps_painted (width height : ℚ) (f : Point → ℚ × ℚ) (style : String)
    (rest : List Point) (c : Context2D) :
    ((rest.flatMap (fun p => markerOps (f p) style)).foldl (Context2D.apply width height) c).painted
      = c.painted ++ rest.map (fun p => marker (f p) style) := by
  induction rest generalizing c with
  | nil => simp
  | cons p rest ih =>
    rw [List.flatMap_cons, List.foldl_append, ih]
    simp [markerOps, marker, Context2D.apply]

theorem foldl_drawBlueprintWith_cons (margin width height : ℚ) (c0 c : Context2D)
    (name : String) (p0 : Point) (rest : List Point) :
    (drawBlueprintWith margin (some ⟨width, height, some c0⟩) (some ⟨name, p0 :: rest⟩)).foldl
        (Context2D.apply width height) c
      = (rest.flatMap
          (fun p => markerOps (transformPoint margin width height p0 rest p) "#e74c3c")).foldl
          (Context2D.apply width height) (afterStart width height margin p0 rest) := by
  rw [drawBlueprintWith_cons]
  simp only [List.foldl_append, List.foldl_cons, List.foldl_nil, foldl_lineTo, markerOps,
    apply_clearRect_full]
  simp [Context2D.apply, afterStart, marker]

/-! ## Auxiliary lemmas: the fit -/

theorem guarded_mul_eq (d a : ℚ) (hd : d ≠ 0) : d * (a / jsOr d 1) = a := by
  unfold jsOr
  rw [if_neg hd]
  exact mul_div_cancel₀ a hd

theorem guarded_mul_le (d a : ℚ) (ha : 0 ≤ a) : d * (a / jsOr d 1) ≤ a := by
  by_cases hd : d = 0
  · rw [hd, zero_mul]; exact ha
  · exact le_of_eq (guarded_mul_eq d a hd)

theorem guarded_div_nonneg (d a : ℚ) (hd : 0 ≤ d) (ha : 0 ≤ a) : 0 ≤ a / jsOr d 1 :=
  div_nonneg ha (le_of_lt (jsOr_one_pos d hd))

theorem scale_le_scaleX (margin width height : ℚ) (p0 : Point) (rest : List Point) :
    scale margin width height p0 rest ≤ scaleX margin width p0 rest := by
  rw [scale_eq_min]; exact min_le_left _ _

theorem scale_le_scaleY (margin width height : ℚ) (p0 : Point) (rest : List Point) :
    scale margin width height p0 rest ≤ scaleY margin height p0 rest := by
  rw [scale_eq_min]; exact min_le_right _ _

theorem scale_nonneg (margin width height : ℚ) (p0 : Point) (rest : List Point)
    (hw : 2 * margin ≤ width) (hh : 2 * margin ≤ height) :
    0 ≤ scale margin width height p0 rest := by
  rw [scale_eq_min]
  exact le_min
    (guarded_div_nonneg _ _ (sub_nonneg.mpr (minX_le_maxX p0 rest)) (by linarith))
    (guarded_div_nonneg _ _ (sub_nonneg.mpr (minY_le_maxY p0 rest)) (by linarith))

/-- One axis of the fit: a coordinate between the extrema lands between the margins. -/
theorem transformCoord_bounds (margin c lo hi sc a : ℚ) (hlo : lo ≤ c) (hhi : c ≤ hi)
    (hs0 : 0 ≤ sc) (hs : sc ≤ a / jsOr (hi - lo) 1) (ha : 0 ≤ a) :
    margin ≤ transformCoord margin c lo sc ∧ transformCoord margin c lo sc ≤ a + margin := by
  unfold transformCoord
  have h1 : 0 ≤ (c - lo) * sc := mul_nonneg (by linarith) hs0
  have h2 : (c - lo) * sc ≤ (hi - lo) * sc := mul_le_mul_of_nonneg_right (by linarith) hs0
  have h3 : (hi - lo) * sc ≤ (hi - lo) * (a / jsOr (hi - lo) 1) :=
    mul_le_mul_of_nonneg_left hs (by linarith)
  have h4 := guarded_mul_le (hi - lo) a ha
  constructor <;> linarith

theorem transformPoint_bounds (margin width height : ℚ) (p0 : Point) (rest : List Point)
    (hw : 2 * margin ≤ width) (hh : 2 * margin ≤ height) (p : Point) (hp : p ∈ p0 :: rest) :
    margin ≤ (transformPoint margin width height p0 rest p).1
      ∧ (transformPoint margin width height p0 rest p).1 ≤ width - margin
      ∧ margin ≤ (transformPoint margin width height p0 rest p).2
      ∧ (transformPoint margin width height p0 rest p).2 ≤ height - margin := by
  have hs0 := scale_nonneg margin width height p0 rest hw hh
  have hx := transformCoord_bounds margin p.x (minX p0 rest) (maxX p0 rest)
    (scale margin width height p0 rest) (width - 2 * margin) (minX_le p0 rest p hp)
    (le_maxX p0 rest p hp) hs0 (scale_le_scaleX margin width height p0 rest) (by linarith)
  have hy := transformCoord_bounds margin p.y (minY p0 rest) (maxY p0 rest)
    (scale margin width height p0 rest) (height - 2 * margin) (minY_le p0 rest p hp)
    (le_maxY p0 rest p hp) hs0 (scale_le_scaleY margin width height p0 rest) (by linarith)
  simp only [transformPoint]
  refine ⟨hx.1, ?_, hy.1, ?_⟩
  · linarith [hx.2]
  · linarith [hy.2]

/-- Every coordinate pair in the calls on a non-empty blueprint is the image of a point. -/
theorem coord_mem_drawBlueprintWith_cons (margin width height : ℚ) (ctx : Context2D)
    (name : String) (p0 : Point) (rest : List Point) (op : CanvasOp) (xy : ℚ × ℚ)
    (hop : op ∈ drawBlueprintWith margin (some ⟨width, height, some ctx⟩)
      (some ⟨name, p0 :: rest⟩))
    (hc : op.coord = some xy) :
    ∃ p ∈ p0 :: rest, xy = transformPoint margin width height p0 rest p := by
  rw [drawBlueprintWith_cons] at hop
  simp only [List.mem_append, List.mem_cons, List.mem_map, List.mem_flatMap, markerOps,
    List.mem_singleton, List.not_mem_nil, or_false] at hop
  rcases hop with (((((rfl | rfl | rfl) | ⟨p, hp, rfl⟩) | (rfl | rfl | rfl)) |
    (rfl | rfl | rfl | rfl)) | ⟨p, hp, (rfl | rfl | rfl | rfl)⟩) <;>
    simp only [CanvasOp.coord, Option.some.injEq, reduceCtorEq] at hc <;>
    first
      | exact ⟨p0, List.mem_cons_self _ _, hc.symm⟩
      | exact ⟨p, List.mem_cons_of_mem _ hp, hc.symm⟩

theorem filterMap_coord_lineTo (f : Point → ℚ × ℚ) (rest : List Point) :
    (rest.map (fun p => CanvasOp.lineTo (f p).1 (f p).2)).filterMap CanvasOp.coord
      = rest.map f := by
  induction rest with
  | nil => rfl
  | cons p rest ih => simp [CanvasOp.coord, ih]

theorem filterMap_coord_markerOps (f : Point → ℚ × ℚ) (style : String) (rest : List Point) :
    (rest.flatMap (fun p => markerOps (f p) style)).filterMap CanvasOp.coord = rest.map f := by
  induction rest with
  | nil => rfl
  | cons p rest ih =>
    rw [List.flatMap_cons, List.filterMap_append, ih]
    simp [markerOps, CanvasOp.coord]

/-- The coordinate pairs of the calls on a non-empty blueprint, in program order: the
images of the points for the path, then the images of the points for the markers. -/
theorem coords_drawBlueprintWith_cons (margin width height : ℚ) (ctx : Context2D)
    (name : String) (p0 : Point) (rest : List Point) :
    (drawBlueprintWith margin (some ⟨width, height, some ctx⟩)
        (some ⟨name, p0 :: rest⟩)).filterMap CanvasOp.coord
      = (p0 :: rest).map (transformPoint margin width height p0 rest)
        ++ (p0 :: rest).map (transformPoint margin width height p0 rest) := by
  rw [drawBlueprintWith_cons]
  simp only [List.filterMap_append, filterMap_coord_lineTo, filterMap_coord_markerOps]
  simp [markerOps, CanvasOp.coord]

theorem drawWith_some (margin width height : ℚ) (c : Context2D) (bp : Blueprint) :
    drawWith margin bp ⟨width, height, some c⟩
      = ⟨width, height,
          some ((drawBlueprintWith margin (some ⟨width, height, some c⟩) (some bp)).foldl
            (Context2D.apply width height) c)⟩ := rfl

theorem drawWith_none (margin width height : ℚ) (bp : Blueprint) :
    drawWith margin bp ⟨width, height, none⟩ = ⟨width, height, none⟩ := rfl

theorem drawWith_nil (margin width height : ℚ) (c : Context2D) (name : String) :
    drawWith margin ⟨name, []⟩ ⟨width, height, some c⟩
      = ⟨width, height, some { c with painted := [] }⟩ := by
  rw [drawWith_some, drawBlueprintWith_nil]
  simp [apply_clearRect_full]

/-- What is on the bitmap after drawing a non-empty blueprint. -/
theorem painted_drawWith_cons (margin width height : ℚ) (c : Context2D) (name : String)
    (p0 : Point) (rest : List Point) :
    (drawWith margin ⟨name, p0 :: rest⟩ ⟨width, height, some c⟩).painted
      = Paint.stroked
          (PathSeg.moveTo (transformPoint margin width height p0 rest p0).1
              (transformPoint margin width height p0 rest p0).2
            :: rest.map (fun p => PathSeg.lineTo (transformPoint margin width height p0 rest p).1
                (transformPoint margin width height p0 rest p).2))
          "#3498db" 2
        :: marker (transformPoint margin width height p0 rest p0) "#2ecc71"
        :: rest.map (fun p => marker (transformPoint margin width height p0 rest p) "#e74c3c") := by
  rw [drawWith_some, Canvas.painted]
  simp only
  rw [foldl_drawBlueprintWith_cons, foldl_markerOps_painted]
  simp [afterStart]

theorem drawWith_idempotent (margin : ℚ) (bp : Blueprint) (s : Canvas) :
    drawWith margin bp (drawWith margin bp s) = drawWith margin bp s := by
  obtain ⟨width, height, ctx⟩ := s
  obtain ⟨name, points⟩ := bp
  cases ctx with
  | none => rfl
  | some c =>
    cases points with
    | nil => rw [drawWith_nil, drawWith_nil]
    | cons p0 rest =>
      rw [drawWith_some, drawWith_some, foldl_drawBlueprintWith_cons,
        foldl_drawBlueprintWith_cons]

theorem painted_drawWith_indep (margin width height : ℚ) (bp : Blueprint) (c1 c2 : Context2D) :
    (drawWith margin bp ⟨width, height, some c1⟩).painted
      = (drawWith margin bp ⟨width, height, some c2⟩).painted := by
  obtain ⟨name, points⟩ := bp
  cases points with
  | nil => rw [drawWith_nil, drawWith_nil]; rfl
  | cons p0 rest => rw [painted_drawWith_cons, painted_drawWith_cons]

theorem mathMin_eq_of (x : ℚ) (xs : List ℚ) (lo : ℚ) (hall : ∀ a ∈ x :: xs, lo ≤ a)
    (hmem : lo ∈ x :: xs) : mathMin x xs = lo := by
  apply le_antisymm
  · rcases List.mem_cons.mp hmem with rfl | h
    · exact mathMin_le_head _ _
    · exact mathMin_le_of_mem _ _ _ h
  · rcases mathMin_attained x xs with h | h
    · rw [h]; exact hall x (List.mem_cons_self _ _)
    · exact hall _ (List.mem_cons_of_mem _ h)

theorem mathMax_eq_of (x : ℚ) (xs : List ℚ) (hi : ℚ) (hall : ∀ a ∈ x :: xs, a ≤ hi)
    (hmem : hi ∈ x :: xs) : mathMax x xs = hi := by
  apply le_antisymm
  · rcases mathMax_attained x xs with h | h
    · rw [h]; exact hall x (List.mem_cons_self _ _)
    · exact hall _ (List.mem_cons_of_mem _ h)
  · rcases List.mem_cons.mp hmem with rfl | h
    · exact head_le_mathMax _ _
    · exact le_mathMax_of_mem _ _ _ h

theorem minX_attained (p0 : Point) (rest : List Point) : ∃ p ∈ p0 :: rest, p.x = minX p0 rest := by
  rcases mathMin_attained p0.x (rest.map Point.x) with h | h
  · exact ⟨p0, List.mem_cons_self _ _, h.symm⟩
  · obtain ⟨p, hp, hpx⟩ := List.mem_map.mp h
    exact ⟨p, List.mem_cons_of_mem _ hp, hpx⟩

theorem maxX_attained (p0 : Point) (rest : List Point) : ∃ p ∈ p0 :: rest, p.x = maxX p0 rest := by
  rcases mathMax_attained p0.x (rest.map Point.x) with h | h
  · exact ⟨p0, List.mem_cons_self _ _, h.symm⟩
  · obtain ⟨p, hp, hpx⟩ := List.mem_map.mp h
    exact ⟨p, List.mem_cons_of_mem _ hp, hpx⟩

theorem minY_attained (p0 : Point) (rest : List Point) : ∃ p ∈ p0 :: rest, p.y = minY p0 rest := by
  rcases mathMin_attained p0.y (rest.map Point.y) with h | h
  · exact ⟨p0, List.mem_cons_self _ _, h.symm⟩
  · obtain ⟨p, hp, hpy⟩ := List.mem_map.mp h
    exact ⟨p, List.mem_cons_of_mem _ hp, hpy⟩

theorem maxY_attained (p0 : Point) (rest : List Point) : ∃ p ∈ p0 :: rest, p.y = maxY p0 rest := by
  rcases mathMax_attained p0.y (rest.map Point.y) with h | h
  · exact ⟨p0, List.mem_cons_self _ _, h.symm⟩
  · obtain ⟨p, hp, hpy⟩ := List.mem_map.mp h
    exact ⟨p, List.mem_cons_of_mem _ hp, hpy⟩

theorem transformed_minX (margin width height : ℚ) (p0 : Point) (rest : List Point)
    (hw : 2 * margin ≤ width) (hh : 2 * margin ≤ height) :
    mathMin (transformPoint margin width height p0 rest p0).1
        (rest.map (fun p => (transformPoint margin width height p0 rest p).1)) = margin := by
  apply mathMin_eq_of
  · intro a ha
    have ha2 : a ∈ (p0 :: rest).map (fun p => (transformPoint margin width height p0 rest p).1) :=
      ha
    obtain ⟨p, hp, rfl⟩ := List.mem_map.mp ha2
    exact (transformPoint_bounds margin width height p0 rest hw hh p hp).1
  · obtain ⟨p, hp, hpx⟩ := minX_attained p0 rest
    have hm : (transformPoint margin width height p0 rest p).1 = margin := by
      simp [transformPoint, transformCoord, hpx]
    have hmem : (transformPoint margin width height p0 rest p).1
        ∈ (p0 :: rest).map (fun p => (transformPoint margin width height p0 rest p).1) :=
      List.mem_map_of_mem _ hp
    rw [hm] at hmem
    exact hmem

theorem transformed_minY (margin width height : ℚ) (p0 : Point) (rest : List Point)
    (hw : 2 * margin ≤ width) (hh : 2 * margin ≤ height) :
    mathMin (transformPoint margin width height p0 rest p0).2
        (rest.map (fun p => (transformPoint margin width height p0 rest p).2)) = margin := by
  apply mathMin_eq_of
  · intro a ha
    have ha2 : a ∈ (p0 :: rest).map (fun p => (transformPoint margin width height p0 rest p).2) :=
      ha
    obtain ⟨p, hp, rfl⟩ := List.mem_map.mp ha2
    exact (transformPoint_bounds margin width height p0 rest hw hh p hp).2.2.1
  · obtain ⟨p, hp, hpy⟩ := minY_attained p0 rest
    have hm : (transformPoint margin width height p0 rest p).2 = margin := by
      simp [transformPoint, transformCoord, hpy]
    have hmem : (transformPoint margin width height p0 rest p).2
        ∈ (p0 :: rest).map (fun p => (transformPoint margin width height p0 rest p).2) :=
      List.mem_map_of_mem _ hp
    rw [hm] at hmem
    exact hmem

theorem transformed_maxX (margin width height : ℚ) (p0 : Point) (rest : List Point)
    (hs : 0 ≤ scale margin width height p0 rest) :
    mathMax (transformPoint margin width height p0 rest p0).1
        (rest.map (fun p => (transformPoint margin width height p0 rest p).1))
      = (maxX p0 rest - minX p0 rest) * scale margin width height p0 rest + margin := by
  apply mathMax_eq_of
  · intro a ha
    have ha2 : a ∈ (p0 :: rest).map (fun p => (transformPoint margin width height p0 rest p).1) :=
      ha
    obtain ⟨p, hp, rfl⟩ := List.mem_map.mp ha2
    have h1 : (p.x - minX p0 rest) * scale margin width height p0 rest
        ≤ (maxX p0 rest - minX p0 rest) * scale margin width height p0 rest :=
      mul_le_mul_of_nonneg_right (by linarith [le_maxX p0 rest p hp]) hs
    simp only [transformPoint, transformCoord]
    linarith
  · obtain ⟨p, hp, hpx⟩ := maxX_attained p0 rest
    have hmem : (transformPoint margin width height p0 rest p).1
        ∈ (p0 :: rest).map (fun p => (transformPoint margin width height p0 rest p).1) :=
      List.mem_map_of_mem _ hp
    simp only [transformPoint, transformCoord, hpx] at hmem
    exact hmem

theorem transformed_maxY (margin width height : ℚ) (p0 : Point) (rest : List Point)
    (hs : 0 ≤ scale margin width height p0 rest) :
    mathMax (transformPoint margin width height p0 rest p0).2
        (rest.map (fun p => (transformPoint margin width height p0 rest p).2))
      = (maxY p0 rest - minY p0 rest) * scale margin width height p0 rest + margin := by
  apply mathMax_eq_of
  · intro a ha
    have ha2 : a ∈ (p0 :: rest).map (fun p => (transformPoint margin width height p0 rest p).2) :=
      ha
    obtain ⟨p, hp, rfl⟩ := List.mem_map.mp ha2
    have h1 : (p.y - minY p0 rest) * scale margin width height p0 rest
        ≤ (maxY p0 rest - minY p0 rest) * scale margin width height p0 rest :=
      mul_le_mul_of_nonneg_right (by linarith [le_maxY p0 rest p hp]) hs
    simp only [transformPoint, transformCoord]
    linarith
  · obtain ⟨p, hp, hpy⟩ := maxY_attained p0 rest
    have hmem : (transformPoint margin width height p0 rest p).2
        ∈ (p0 :: rest).map (fun p => (transformPoint margin width height p0 rest p).2) :=
      List.mem_map_of_mem _ hp
    simp only [transformPoint, transformCoord, hpy] at hmem
    exact hmem

theorem extremaX_of_const (p0 : Point) (rest : List Point) (h : ∀ p ∈ rest, p.x = p0.x) :
    minX p0 rest = p0.x ∧ maxX p0 rest = p0.x := by
  have hall : ∀ p ∈ p0 :: rest, p.x = p0.x := by
    intro p hp
    rcases List.mem_cons.mp hp with rfl | hp
    · rfl
    · exact h p hp
  obtain ⟨p, hp, hpx⟩ := minX_attained p0 rest
  obtain ⟨q, hq, hqx⟩ := maxX_attained p0 rest
  exact ⟨by rw [← hpx]; exact hall p hp, by rw [← hqx]; exact hall q hq⟩

theorem extremaY_of_const (p0 : Point) (rest : List Point) (h : ∀ p ∈ rest, p.y = p0.y) :
    minY p0 rest = p0.y ∧ maxY p0 rest = p0.y := by
  have hall : ∀ p ∈ p0 :: rest, p.y = p0.y := by
    intro p hp
    rcases List.mem_cons.mp hp with rfl | hp
    · rfl
    · exact h p hp
  obtain ⟨p, hp, hpy⟩ := minY_attained p0 rest
  obtain ⟨q, hq, hqy⟩ := maxY_attained p0 rest
  exact ⟨by rw [← hpy]; exact hall p hp, by rw [← hqy]; exact hall q hq⟩

/-! ## Claims -/

/-- C1: on a non-empty blueprint and a canvas with `2 * margin < width` and
`2 * margin < height`, every coordinate pair that `drawBlueprint` passes to `moveTo`,
`lineTo` or `arc` lies in `[margin, width - margin] × [margin, height - margin]`,
degenerate axes included (the hypothesis `0 < margin` is not needed). -/
theorem drawBlueprint_coords_within_margins (margin width height : ℚ) (ctx : Context2D)
    (name : String) (p0 : Point) (rest : List Point)
    (hw : 2 * margin < width) (hh : 2 * margin < height) (op : CanvasOp) (x y : ℚ)
    (hop : op ∈ drawBlueprintWith margin (some ⟨width, height, some ctx⟩)
      (some ⟨name, p0 :: rest⟩))
    (hc : op.coord = some (x, y)) :
    margin ≤ x ∧ x ≤ width - margin ∧ margin ≤ y ∧ y ≤ height - margin := by
  obtain ⟨p, hp, hxy⟩ :=
    coord_mem_drawBlueprintWith_cons margin width height ctx name p0 rest op (x, y) hop hc
  have hb := transformPoint_bounds margin width height p0 rest (le_of_lt hw) (le_of_lt hh) p hp
  rw [← hxy] at hb
  exact hb

/-- Witness of C1: the call `lineTo(380, 20)` made for the blueprint
`[(0,0), (10,0), (10,10)]` on the 400 by 400 canvas with margin 20. -/
theorem drawBlueprint_coords_within_margins_witness :
    (2 : ℚ) * 20 < 400
      ∧ CanvasOp.lineTo 380 20 ∈ drawBlueprint (some ⟨400, 400, some Context2D.fresh⟩)
          (some ⟨"bp", [⟨0, 0⟩, ⟨10, 0⟩, ⟨10, 10⟩]⟩)
      ∧ ((20 : ℚ) ≤ 380 ∧ (380 : ℚ) ≤ 400 - 20 ∧ (20 : ℚ) ≤ 20 ∧ (20 : ℚ) ≤ 400 - 20) := by
  have hop : CanvasOp.lineTo 380 20 ∈ drawBlueprintWith 20 (some ⟨400, 400, some Context2D.fresh⟩)
      (some ⟨"bp", [⟨0, 0⟩, ⟨10, 0⟩, ⟨10, 10⟩]⟩) := by
    rw [drawBlueprintWith_cons]
    norm_num [transformPoint, markerOps, transformCoord, mathPI, scale, scaleX, scaleY,
      mathMin, mathMax, maxX, minX, maxY, minY, jsOr]
  exact ⟨by norm_num, hop,
    drawBlueprint_coords_within_margins 20 400 400 Context2D.fresh "bp" ⟨0, 0⟩
      [⟨10, 0⟩, ⟨10, 10⟩] (by norm_num) (by norm_num) (CanvasOp.lineTo 380 20) 380 20 hop rfl⟩

/-- C2: on a blueprint with points `p0 :: rest`, `drawBlueprint` clears the canvas, opens
one path with `moveTo` at the image of `p0` and one `lineTo` per later point in input
order, strokes it, and then puts one marker of radius 3 per point in input order, the
first filled `#2ecc71` (start) and every later one `#e74c3c` (regular); on the bitmap this
leaves exactly that polyline followed by exactly those markers. -/
theorem drawBlueprint_path_then_markers (width height : ℚ) (ctx : Context2D) (name : String)
    (p0 : Point) (rest : List Point) :
    drawBlueprint (some ⟨width, height, some ctx⟩) (some ⟨name, p0 :: rest⟩)
        = [CanvasOp.clearRect 0 0 width height, CanvasOp.beginPath,
            CanvasOp.moveTo (transformPoint 20 width height p0 rest p0).1
              (transformPoint 20 width height p0 rest p0).2]
          ++ rest.map (fun p => CanvasOp.lineTo (transformPoint 20 width height p0 rest p).1
              (transformPoint 20 width height p0 rest p).2)
          ++ [CanvasOp.setStrokeStyle "#3498db", CanvasOp.setLineWidth 2, CanvasOp.stroke]
          ++ [CanvasOp.beginPath,
              CanvasOp.arc (transformPoint 20 width height p0 rest p0).1
                (transformPoint 20 width height p0 rest p0).2 3 0 (2 * mathPI),
              CanvasOp.setFillStyle "#2ecc71", CanvasOp.fill]
          ++ rest.flatMap (fun p =>
              [CanvasOp.beginPath,
               CanvasOp.arc (transformPoint 20 width height p0 rest p).1
                 (transformPoint 20 width height p0 rest p).2 3 0 (2 * mathPI),
               CanvasOp.setFillStyle "#e74c3c", CanvasOp.fill])
      ∧ (draw ⟨name, p0 :: rest⟩ ⟨width, height, some ctx⟩).painted
        = Paint.stroked
            (PathSeg.moveTo (transformPoint 20 width height p0 rest p0).1
                (transformPoint 20 width height p0 rest p0).2
              :: rest.map (fun p => PathSeg.lineTo (transformPoint 20 width height p0 rest p).1
                  (transformPoint 20 width height p0 rest p).2))
            "#3498db" 2
          :: Paint.filled
              [PathSeg.arc (transformPoint 20 width height p0 rest p0).1
                (transformPoint 20 width height p0 rest p0).2 3 0 (2 * mathPI)] "#2ecc71"
          :: rest.map (fun p =>
              Paint.filled
                [PathSeg.arc (transformPoint 20 width height p0 rest p).1
                  (transformPoint 20 width height p0 rest p).2 3 0 (2 * mathPI)] "#e74c3c") :=
  ⟨drawBlueprintWith_cons 20 width height ctx name p0 rest,
   painted_drawWith_cons 20 width height ctx name p0 rest⟩

/-- C3: on a blueprint without points (canvas and context available) `drawBlueprint`
makes a single context call, the clear of the whole canvas; no path call and no marker
call is made, the call returns, and the surface is left with nothing painted and its
path and styles untouched. -/
theorem drawBlueprint_empty_points (width height : ℚ) (ctx : Context2D) (name : String) :
    drawBlueprint (some ⟨width, height, some ctx⟩) (some ⟨name, []⟩)
        = [CanvasOp.clearRect 0 0 width height]
      ∧ draw ⟨name, []⟩ ⟨width, height, some ctx⟩
        = ⟨width, height, some { ctx with painted := [] }⟩ :=
  ⟨drawBlueprintWith_nil 20 width height ctx name, drawWith_nil 20 width height ctx name⟩

/-- C4: on a single-point blueprint `[(x, y)]` the path is the single `moveTo(margin,
margin)` with no `lineTo`, and exactly one marker is put, with the start colour, centred
at `(margin, margin)`, whatever `x`, `y` and the canvas dimensions are. -/
theorem drawBlueprint_single_point (margin width height : ℚ) (ctx : Context2D) (name : String)
    (x y : ℚ) :
    drawBlueprintWith margin (some ⟨width, height, some ctx⟩) (some ⟨name, [⟨x, y⟩]⟩)
        = [CanvasOp.clearRect 0 0 width height, CanvasOp.beginPath, CanvasOp.moveTo margin margin,
           CanvasOp.setStrokeStyle "#3498db", CanvasOp.setLineWidth 2, CanvasOp.stroke,
           CanvasOp.beginPath, CanvasOp.arc margin margin 3 0 (2 * mathPI),
           CanvasOp.setFillStyle "#2ecc71", CanvasOp.fill]
      ∧ (drawWith margin ⟨name, [⟨x, y⟩]⟩ ⟨width, height, some ctx⟩).painted
        = [Paint.stroked [PathSeg.moveTo margin margin] "#3498db" 2,
           Paint.filled [PathSeg.arc margin margin 3 0 (2 * mathPI)] "#2ecc71"] := by
  have hT : transformPoint margin width height ⟨x, y⟩ [] ⟨x, y⟩ = (margin, margin) := by
    simp [transformPoint, transformCoord, minX, minY, mathMin]
  constructor
  · rw [drawBlueprintWith_cons, hT]
    simp [markerOps]
  · rw [painted_drawWith_cons, hT]
    simp [marker]

/-- C5: when all points share their x coordinate, every coordinate pair `drawBlueprint`
passes on has x equal to `margin`, and y is scaled by
`scale = min((width - 2 margin) / 1, (height - 2 margin) / (maxY - minY || 1))`;
symmetrically when all points share their y coordinate. -/
theorem drawBlueprint_degenerate_axis (margin width height : ℚ) (ctx : Context2D)
    (name : String) (p0 : Point) (rest : List Point) :
    ((∀ p ∈ rest, p.x = p0.x) →
        scale margin width height p0 rest
          = min ((width - 2 * margin) / 1)
              ((height - 2 * margin) / jsOr (maxY p0 rest - minY p0 rest) 1)
        ∧ (drawBlueprintWith margin (some ⟨width, height, some ctx⟩)
              (some ⟨name, p0 :: rest⟩)).filterMap CanvasOp.coord
            = (p0 :: rest).map (fun p =>
                (margin, (p.y - minY p0 rest) * scale margin width height p0 rest + margin))
              ++ (p0 :: rest).map (fun p =>
                (margin, (p.y - minY p0 rest) * scale margin width height p0 rest + margin)))
      ∧ ((∀ p ∈ rest, p.y = p0.y) →
        scale margin width height p0 rest
          = min ((width - 2 * margin) / jsOr (maxX p0 rest - minX p0 rest) 1)
              ((height - 2 * margin) / 1)
        ∧ (drawBlueprintWith margin (some ⟨width, height, some ctx⟩)
              (some ⟨name, p0 :: rest⟩)).filterMap CanvasOp.coord
            = (p0 :: rest).map (fun p =>
                ((p.x - minX p0 rest) * scale margin width height p0 rest + margin, margin))
              ++ (p0 :: rest).map (fun p =>
                ((p.x - minX p0 rest) * scale margin width height p0 rest + margin, margin))) := by
  constructor
  · intro h
    obtain ⟨hmin, hmax⟩ := extremaX_of_const p0 rest h
    have hT : ∀ p ∈ p0 :: rest, transformPoint margin width height p0 rest p
        = (margin, (p.y - minY p0 rest) * scale margin width height p0 rest + margin) := by
      intro p hp
      have hpx : p.x = p0.x := by
        rcases List.mem_cons.mp hp with rfl | hp
        · rfl
        · exact h p hp
      simp [transformPoint, transformCoord, hmin, hpx]
    refine ⟨?_, ?_⟩
    · rw [scale_eq_min, scaleX, scaleY, hmin, hmax]
      simp [jsOr]
    · rw [coords_drawBlueprintWith_cons, List.map_congr_left hT]
  · intro h
    obtain ⟨hmin, hmax⟩ := extremaY_of_const p0 rest h
    have hT : ∀ p ∈ p0 :: rest, transformPoint margin width height p0 rest p
        = ((p.x - minX p0 rest) * scale margin width height p0 rest + margin, margin) := by
      intro p hp
      have hpy : p.y = p0.y := by
        rcases List.mem_cons.mp hp with rfl | hp
        · rfl
        · exact h p hp
      simp [transformPoint, transformCoord, hmin, hpy]
    refine ⟨?_, ?_⟩
    · rw [scale_eq_min, scaleX, scaleY, hmin, hmax]
      simp [jsOr]
    · rw [coords_drawBlueprintWith_cons, List.map_congr_left hT]

/-- Witness of C5: the points `[(5,0), (5,10)]` on the 100 by 100 canvas with margin 20
give `scale = 6` and the transformed points `(20,20)` and `(20,80)`. -/
theorem drawBlueprint_degenerate_axis_witness :
    (∀ p ∈ [(⟨5, 10⟩ : Point)], p.x = (⟨5, 0⟩ : Point).x)
      ∧ scale 20 100 100 ⟨5, 0⟩ [⟨5, 10⟩] = 6
      ∧ (drawBlueprint (some ⟨100, 100, some Context2D.fresh⟩)
            (some ⟨"bp", [⟨5, 0⟩, ⟨5, 10⟩]⟩)).filterMap CanvasOp.coord
          = [(20, 20), (20, 80), (20, 20), (20, 80)] := by
  have hx : ∀ p ∈ [(⟨5, 10⟩ : Point)], p.x = (⟨5, 0⟩ : Point).x := by
    intro p hp
    rw [List.mem_singleton.mp hp]
  have h := (drawBlueprint_degenerate_axis 20 100 100 Context2D.fresh "bp" ⟨5, 0⟩
    [⟨5, 10⟩]).1 hx
  have hs : scale 20 100 100 ⟨5, 0⟩ [⟨5, 10⟩] = 6 := by
    rw [h.1]
    norm_num [maxY, minY, mathMax, mathMin, jsOr]
  refine ⟨hx, hs, ?_⟩
  rw [drawBlueprint, h.2, hs]
  norm_num [minY, mathMin]

/-- C6 as stated fails on the program: in binary64, for the points `(-1e308, 0)` and
`(1e308, 1)` on the 400 by 400 canvas (`2 * margin < width, height`), the extent
`maxX - minX` overflows to `Infinity`, which is truthy, so `scaleX = 360 / Infinity = 0`
and `scale = Math.min(0, 360) = 0`, which is not strictly positive. -/
theorem drawBlueprint_scale_zero_in_binary64 :
    (2 : ℚ) * 20 < 400
      ∧ Binary64.sub
          (Binary64.maxX
            [⟨Binary64.round (-((10 ^ 308 : ℕ) : ℚ)), Binary64.F64.fin 0⟩,
             ⟨Binary64.round ((10 ^ 308 : ℕ) : ℚ), Binary64.F64.fin 1⟩])
          (Binary64.minX
            [⟨Binary64.round (-((10 ^ 308 : ℕ) : ℚ)), Binary64.F64.fin 0⟩,
             ⟨Binary64.round ((10 ^ 308 : ℕ) : ℚ), Binary64.F64.fin 1⟩])
        = Binary64.F64.inf false
      ∧ Binary64.scaleX (Binary64.F64.fin 400)
          [⟨Binary64.round (-((10 ^ 308 : ℕ) : ℚ)), Binary64.F64.fin 0⟩,
           ⟨Binary64.round ((10 ^ 308 : ℕ) : ℚ), Binary64.F64.fin 1⟩]
        = Binary64.F64.fin 0
      ∧ Binary64.scale (Binary64.F64.fin 400) (Binary64.F64.fin 400)
          [⟨Binary64.round (-((10 ^ 308 : ℕ) : ℚ)), Binary64.F64.fin 0⟩,
           ⟨Binary64.round ((10 ^ 308 : ℕ) : ℚ), Binary64.F64.fin 1⟩]
        = Binary64.F64.fin 0 := by
  decide!

/-- C6, amended to exact rational arithmetic: over the rationals the two divisors
`maxX - minX || 1` and `maxY - minY || 1` are strictly positive for every non-empty point
sequence, so that `scaleX` and `scaleY` are genuine quotients (multiplying back by the
divisor gives the numerator); and `scale` is strictly positive when
`2 * margin < width` and `2 * margin < height`. -/
theorem drawBlueprint_divisors_positive (margin width height : ℚ) (p0 : Point)
    (rest : List Point) :
    0 < jsOr (maxX p0 rest - minX p0 rest) 1
      ∧ 0 < jsOr (maxY p0 rest - minY p0 rest) 1
      ∧ scaleX margin width p0 rest * jsOr (maxX p0 rest - minX p0 rest) 1 = width - 2 * margin
      ∧ scaleY margin height p0 rest * jsOr (maxY p0 rest - minY p0 rest) 1
          = height - 2 * margin
      ∧ (2 * margin < width → 2 * margin < height → 0 < scale margin width height p0 rest) := by
  have hx := jsOr_one_pos _ (sub_nonneg.mpr (minX_le_maxX p0 rest))
  have hy := jsOr_one_pos _ (sub_nonneg.mpr (minY_le_maxY p0 rest))
  refine ⟨hx, hy, ?_, ?_, ?_⟩
  · exact div_mul_cancel₀ _ (ne_of_gt hx)
  · exact div_mul_cancel₀ _ (ne_of_gt hy)
  · intro hw hh
    rw [scale_eq_min]
    exact lt_min (div_pos (by linarith) hx) (div_pos (by linarith) hy)

/-- Witness of C6: the blueprint `[(5,0), (5,10)]`, degenerate in x, on the 100 by 100
canvas with margin 20. -/
theorem drawBlueprint_divisors_positive_witness :
    (2 : ℚ) * 20 < 100 ∧ 0 < scale 20 100 100 ⟨5, 0⟩ [⟨5, 10⟩] :=
  ⟨by norm_num,
    (drawBlueprint_divisors_positive 20 100 100 ⟨5, 0⟩ [⟨5, 10⟩]).2.2.2.2
      (by norm_num) (by norm_num)⟩

/-- C7: after `fetchBlueprints` the listed blueprints are exactly the returned data when
the request resolved with an ok response whose body parsed, and the empty list in every
other case (the request threw, the response was not ok, the body did not parse),
whatever was listed before. -/
theorem fetchBlueprints_result_set (fetch : String → FetchResult) (s : State) :
    (fetchBlueprints fetch s).blueprints
      = match fetch (url s.author) with
        | FetchResult.response true (some data) => data
        | _ => [] := by
  unfold fetchBlueprints
  cases fetch (url s.author) with
  | threw => rfl
  | response ok json =>
    cases ok <;> cases json <;> rfl

/-- C8: drawing the same blueprint again on the surface a draw has left changes nothing,
and what a draw leaves painted does not depend on the prior state of the context. -/
theorem draw_idempotent (bp : Blueprint) (s : Canvas) (width height : ℚ)
    (c1 c2 : Context2D) :
    draw bp (draw bp s) = draw bp s
      ∧ (draw bp ⟨width, height, some c1⟩).painted = (draw bp ⟨width, height, some c2⟩).painted :=
  ⟨drawWith_idempotent 20 bp s, painted_drawWith_indep 20 width height bp c1 c2⟩

/-- C9 as stated fails on the program: in binary64, for the points `(0, 0)` and
`(169, 169)` on the 400 by 400 canvas both extents are non-zero, `scale` is the double
nearest to `360 / 169`, and the greatest transformed coordinate is
`380 + 2 ^ -44 = 380.00000000000006` on both axes, not `width - margin = 380`. -/
theorem drawBlueprint_tight_fit_inexact_in_binary64 :
    Binary64.maxX [⟨Binary64.F64.fin 0, Binary64.F64.fin 0⟩,
        ⟨Binary64.F64.fin 169, Binary64.F64.fin 169⟩]
        ≠ Binary64.minX [⟨Binary64.F64.fin 0, Binary64.F64.fin 0⟩,
          ⟨Binary64.F64.fin 169, Binary64.F64.fin 169⟩]
      ∧ Binary64.maxY [⟨Binary64.F64.fin 0, Binary64.F64.fin 0⟩,
          ⟨Binary64.F64.fin 169, Binary64.F64.fin 169⟩]
        ≠ Binary64.minY [⟨Binary64.F64.fin 0, Binary64.F64.fin 0⟩,
          ⟨Binary64.F64.fin 169, Binary64.F64.fin 169⟩]
      ∧ [⟨Binary64.F64.fin 0, Binary64.F64.fin 0⟩,
          (⟨Binary64.F64.fin 169, Binary64.F64.fin 169⟩ : Binary64.Point)].map
          (Binary64.transformPoint (Binary64.F64.fin 400) (Binary64.F64.fin 400)
            [⟨Binary64.F64.fin 0, Binary64.F64.fin 0⟩,
             ⟨Binary64.F64.fin 169, Binary64.F64.fin 169⟩])
        = [(Binary64.F64.fin 20, Binary64.F64.fin 20),
           (Binary64.F64.fin (380 + 1 / 2 ^ 44), Binary64.F64.fin (380 + 1 / 2 ^ 44))]
      ∧ ¬ (Binary64.mathMax
            ([⟨Binary64.F64.fin 0, Binary64.F64.fin 0⟩,
              (⟨Binary64.F64.fin 169, Binary64.F64.fin 169⟩ : Binary64.Point)].map
              (fun p => (Binary64.transformPoint (Binary64.F64.fin 400) (Binary64.F64.fin 400)
                [⟨Binary64.F64.fin 0, Binary64.F64.fin 0⟩,
                 ⟨Binary64.F64.fin 169, Binary64.F64.fin 169⟩] p).1))
            = Binary64.sub (Binary64.F64.fin 400) Binary64.margin
          ∨ Binary64.mathMax
            ([⟨Binary64.F64.fin 0, Binary64.F64.fin 0⟩,
              (⟨Binary64.F64.fin 169, Binary64.F64.fin 169⟩ : Binary64.Point)].map
              (fun p => (Binary64.transformPoint (Binary64.F64.fin 400) (Binary64.F64.fin 400)
                [⟨Binary64.F64.fin 0, Binary64.F64.fin 0⟩,
                 ⟨Binary64.F64.fin 169, Binary64.F64.fin 169⟩] p).2))
            = Binary64.sub (Binary64.F64.fin 400) Binary64.margin) := by
  decide!

/-- C9, amended to exact rational arithmetic: over the rationals, when both extents are
non-zero and `2 * margin < width`, `2 * margin < height`, both axes are transformed with
the one factor
`scale = min((width - 2 margin) / (maxX - minX), (height - 2 margin) / (maxY - minY))`,
the least transformed x and the least transformed y are `margin`, and the greatest
transformed x is `width - margin` or the greatest transformed y is `height - margin`. -/
theorem drawBlueprint_tight_fit (margin width height : ℚ) (ctx : Context2D) (name : String)
    (p0 : Point) (rest : List Point) (hw : 2 * margin < width) (hh : 2 * margin < height)
    (hx : maxX p0 rest ≠ minX p0 rest) (hy : maxY p0 rest ≠ minY p0 rest) :
    scale margin width height p0 rest
        = min ((width - 2 * margin) / (maxX p0 rest - minX p0 rest))
            ((height - 2 * margin) / (maxY p0 rest - minY p0 rest))
      ∧ (drawBlueprintWith margin (some ⟨width, height, some ctx⟩)
            (some ⟨name, p0 :: rest⟩)).filterMap CanvasOp.coord
          = (p0 :: rest).map (fun p =>
              ((p.x - minX p0 rest) * scale margin width height p0 rest + margin,
               (p.y - minY p0 rest) * scale margin width height p0 rest + margin))
            ++ (p0 :: rest).map (fun p =>
              ((p.x - minX p0 rest) * scale margin width height p0 rest + margin,
               (p.y - minY p0 rest) * scale margin width height p0 rest + margin))
      ∧ mathMin ((p0.x - minX p0 rest) * scale margin width height p0 rest + margin)
          (rest.map (fun p => (p.x - minX p0 rest) * scale margin width height p0 rest + margin))
          = margin
      ∧ mathMin ((p0.y - minY p0 rest) * scale margin width height p0 rest + margin)
          (rest.map (fun p => (p.y - minY p0 rest) * scale margin width height p0 rest + margin))
          = margin
      ∧ (mathMax ((p0.x - minX p0 rest) * scale margin width height p0 rest + margin)
            (rest.map (fun p =>
              (p.x - minX p0 rest) * scale margin width height p0 rest + margin))
            = width - margin
          ∨ mathMax ((p0.y - minY p0 rest) * scale margin width height p0 rest + margin)
            (rest.map (fun p =>
              (p.y - minY p0 rest) * scale margin width height p0 rest + margin))
            = height - margin) := by
  have hs0 := scale_nonneg margin width height p0 rest (le_of_lt hw) (le_of_lt hh)
  have hdx : maxX p0 rest - minX p0 rest ≠ 0 := sub_ne_zero.mpr hx
  have hdy : maxY p0 rest - minY p0 rest ≠ 0 := sub_ne_zero.mpr hy
  refine ⟨?_, ?_, ?_, ?_, ?_⟩
  · rw [scale_eq_min, scaleX, scaleY, jsOr, jsOr, if_neg hdx, if_neg hdy]
  · rw [coords_drawBlueprintWith_cons]
    rfl
  · exact transformed_minX margin width height p0 rest (le_of_lt hw) (le_of_lt hh)
  · exact transformed_minY margin width height p0 rest (le_of_lt hw) (le_of_lt hh)
  · have hmx := transformed_maxX margin width height p0 rest hs0
    have hmy := transformed_maxY margin width height p0 rest hs0
    simp only [transformPoint, transformCoord] at hmx hmy
    rcases min_choice (scaleX margin width p0 rest) (scaleY margin height p0 rest) with hc | hc
    · left
      rw [hmx, scale_eq_min, hc, scaleX, guarded_mul_eq _ _ hdx]
      ring
    · right
      rw [hmy, scale_eq_min, hc, scaleY, guarded_mul_eq _ _ hdy]
      ring

/-- Witness of C9: the points `[(0,0), (10,0), (10,10)]` on the 400 by 400 canvas with
margin 20 give `scale = 36` and the transformed points `(20,20)`, `(380,20)`,
`(380,380)`. -/
theorem drawBlueprint_tight_fit_witness :
    scale 20 400 400 ⟨0, 0⟩ [⟨10, 0⟩, ⟨10, 10⟩] = 36
      ∧ (drawBlueprint (some ⟨400, 400, some Context2D.fresh⟩)
            (some ⟨"bp", [⟨0, 0⟩, ⟨10, 0⟩, ⟨10, 10⟩]⟩)).filterMap CanvasOp.coord
          = [(20, 20), (380, 20), (380, 380), (20, 20), (380, 20), (380, 380)] := by
  have h := drawBlueprint_tight_fit 20 400 400 Context2D.fresh "bp" ⟨0, 0⟩
    [⟨10, 0⟩, ⟨10, 10⟩] (by norm_num) (by norm_num)
    (by norm_num [maxX, minX, mathMax, mathMin]) (by norm_num [maxY, minY, mathMax, mathMin])
  have hs : scale 20 400 400 ⟨0, 0⟩ [⟨10, 0⟩, ⟨10, 10⟩] = 36 := by
    rw [h.1]
    norm_num [maxX, minX, maxY, minY, mathMax, mathMin]
  refine ⟨hs, ?_⟩
  rw [drawBlueprint, h.2.1, hs]
  norm_num [minX, minY, mathMin]

/-- C10 fails on the code: after a successful fetch of one blueprint, opening it, closing
the modal and a fetch that throws, the list is empty while the blueprint is still
selected; the catch branch of `fetchBlueprints` does not reset the selection that the
success branch resets. -/
theorem selection_outlives_failed_fetch :
    ¬ ∀ s : State, Reachable s →
        s.selectedBlueprint = none ∨ ∃ bp ∈ s.blueprints, s.selectedBlueprint = some bp := by
  intro hinv
  have h1 : Reachable
      (fetchBlueprints (fun _ => FetchResult.response true (some [⟨"bp", []⟩])) State.initial) :=
    Reachable.step Reachable.init (Step.fetchSuccess _ _)
  have h2 := Reachable.step h1 (Step.openModal _ ⟨"bp", []⟩ (by simp [fetchBlueprints]))
  have h3 := Reachable.step h2 (Step.close _)
  have h4 := Reachable.step h3
    (Step.fetchFailure _ (fun _ => FetchResult.threw) (fun _ => by simp))
  rcases hinv _ h4 with h | ⟨bp, hbp, _⟩
  · simp [fetchBlueprints, onRequestClose, openModal] at h
  · simp [fetchBlueprints, onRequestClose, openModal] at hbp

end BlueprintViewer
